import Mathlib

/-!
Verification of the augmentation pipeline of `augment_caption_dataset/augment_captions.py`,
via a shallow embedding of its data model and operations in Lean.

Modelling conventions:
* Python floats are modelled as rationals (`ℚ`); machine pixel values as `ℕ` clipped to 255.
* The global Mersenne-Twister RNG (`random` module, plus `np.random` for noise) is
  abstracted as fixed raw-draw streams (`Entropy`) together with running indices
  (`RandState`): `random.uniform`, `random.randint` and `random.sample` consume successive
  raw draws.  Raw unit draws are constrained to `[0, 1)` by `ValidEntropy` where a claim
  needs it.
* Filesystem effects (image decode, image/caption writes, mkdir) are abstracted: the
  result of `Image.open` is an `Option Image` supplied by the environment, and a
  per-item/per-variant failure model (`failAt`) marks where an exception is raised inside
  the `try` block of `_augment_item` (any decode, transform or write failure); the
  filename stem/extension split of `pathlib` is abstracted to string concatenation, which
  no claim depends on.
* Pixel-exact transforms (mirror, patch fill, noise add-and-clip, crop box arithmetic)
  are modelled exactly; interpolating resampling operations (rotate, blur, enhance,
  resize) have no finite exact description and are abstracted as arbitrary functions
  (`PixelOps`) universally quantified in every theorem.
-/

namespace AugmentCaptions

/-- The `AugmentationType` enum of supported augmentation kinds (source lines 27-38). -/
inductive AugmentationType
  | FLIP
  | ROTATE
  | BRIGHTNESS
  | CONTRAST
  | BLUR
  | COLOR
  | CROP
  | NOISE
  | PATCH_DELETION
  deriving DecidableEq, Repr

/-- The `AugmentationConfig` dataclass (source lines 41-60), with its default values.
It is a plain dataclass: no validation of any kind is attached to it. -/
structure AugmentationConfig where
  enabled_types : List AugmentationType
  rotation_range : ℚ × ℚ := (-10, 10)
  brightness_range : ℚ × ℚ := (9/10, 11/10)
  contrast_range : ℚ × ℚ := (9/10, 11/10)
  blur_radius_range : ℚ × ℚ := (1/2, 3/2)
  color_factor_range : ℚ × ℚ := (7/10, 13/10)
  crop_percent_range : ℚ × ℚ := (4/5, 19/20)
  noise_factor_range : ℚ × ℚ := (5, 20)
  patch_size_range : ℚ × ℚ := (1/100, 1/20)
  num_patches_range : ℕ × ℕ := (1, 3)
  patch_fill_color : ℕ × ℕ × ℕ := (0, 0, 0)
  augmentations_per_image : ℕ := 2
  caption_augmentation : Bool := false
  seed : Option ℤ := some 16

/-- One `{position, size_factor}` entry recorded by the PATCH_DELETION branch
(source lines 409-414); `position = (left, top, right, bottom)`. -/
structure PatchInfo where
  position : ℕ × ℕ × ℕ × ℕ
  size_factor : ℚ
  deriving DecidableEq, Repr

/-- The per-transform metadata dict `aug_info` built by `_apply_augmentation`
(source lines 313-420), one constructor per `type` value with its kind-specific fields.
The FLIP record carries the constant field `direction="horizontal"`, modelled as a
parameterless constructor. -/
inductive AugInfo
  | flip
  | rotate (angle : ℚ)
  | brightness (factor : ℚ)
  | contrast (factor : ℚ)
  | blur (radius : ℚ)
  | color (factor : ℚ)
  | crop (crop_percent : ℚ) (crop_box : ℕ × ℕ × ℕ × ℕ)
  | noise (factor : ℚ)
  | patchDeletion (patches : List PatchInfo) (num_patches : ℕ)
  deriving DecidableEq, Repr

/-- The `aug_meta` dict `{original_path, augmentations}` (source line 268). -/
structure AugMeta where
  original_path : String
  augmentations : List AugInfo
  deriving DecidableEq, Repr

/-- The `DatasetItem` class (source lines 63-81). `image_path` is kept as a string. -/
structure DatasetItem where
  key : String
  filename : String
  image_path : String
  caption : String
  metadata : Option AugMeta
  deriving DecidableEq, Repr

/-- An in-memory image buffer: dimensions plus an RGB pixel map. -/
structure Image where
  width : ℕ
  height : ℕ
  pixel : ℕ → ℕ → ℕ × ℕ × ℕ

/-- The interpolating PIL operations whose pixel-level results the claims never
inspect; they are abstract parameters of the embedding. -/
structure PixelOps where
  rotate : Image → ℚ → Image
  brightness : Image → ℚ → Image
  contrast : Image → ℚ → Image
  blur : Image → ℚ → Image
  color : Image → ℚ → Image
  resize : Image → ℕ → ℕ → Image

/-- Fixed streams of raw random draws: `uni` backs `random.uniform` (unit-interval
draws), `int` backs `random.randint`/`random.sample`, and `gauss` backs the
standard-normal array drawn by `np.random.normal` (call index, x, y, channel). -/
structure Entropy where
  uni : ℕ → ℚ
  int : ℕ → ℕ
  gauss : ℕ → ℕ → ℕ → ℕ → ℚ

/-- Running consumption indices into the three streams of `Entropy`. -/
structure RandState where
  uniIdx : ℕ
  intIdx : ℕ
  npIdx : ℕ
  deriving DecidableEq, Repr

/-- The raw unit draws of the stream lie in `[0, 1)`, as `random.random()` does. -/
def ValidEntropy (e : Entropy) : Prop :=
  ∀ i, 0 ≤ e.uni i ∧ e.uni i < 1

/-- The `self.stats` dictionary (source lines 131-133): one counter per
`AugmentationType` name plus `total_original` and `total_augmented`.  These are its
only keys; in particular the dictionary holds no error counter. -/
structure Stats where
  counts : AugmentationType → ℕ
  total_original : ℕ
  total_augmented : ℕ

/-- The initial statistics dictionary (source lines 131-133). -/
def initialStats : Stats where
  counts := fun _ => 0
  total_original := 0
  total_augmented := 0

/-- `self.stats[aug_type.name] += 1` (source line 273). -/
def bumpStat (st : Stats) (t : AugmentationType) : Stats :=
  { st with counts := fun u => if u = t then st.counts u + 1 else st.counts u }

/-- `random.uniform(a, b) = a + (b - a) * random()`: consumes the next raw unit draw. -/
def randomUniform (a b : ℚ) (e : Entropy) (r : RandState) : ℚ × RandState :=
  (a + (b - a) * e.uni r.uniIdx, { r with uniIdx := r.uniIdx + 1 })

/-- `random.randint(a, b)`: a uniform integer in `[a, b]` (every reached call site has
`a ≤ b`); the raw draw is reduced modulo the range size. -/
def randomRandint (a b : ℕ) (e : Entropy) (r : RandState) : ℕ × RandState :=
  (a + e.int r.intIdx % (b + 1 - a), { r with intIdx := r.intIdx + 1 })

/-- `random.sample(pool, k)`: selection without replacement, modelled by repeatedly
choosing an index of the remaining pool from the raw integer stream and removing the
chosen element. -/
def sampleAux {α : Type} (e : Entropy) : ℕ → List α → RandState → List α × RandState
  | 0, _, r => ([], r)
  | k + 1, pool, r =>
    if h : 0 < pool.length then
      let j := e.int r.intIdx % pool.length
      let x := pool.get ⟨j, Nat.mod_lt _ h⟩
      let rest := sampleAux e k (pool.eraseIdx j) { r with intIdx := r.intIdx + 1 }
      (x :: rest.1, rest.2)
    else ([], r)

/-- `random.sample(population, k)` with the argument order of the source call site. -/
def randomSample {α : Type} (population : List α) (k : ℕ) (e : Entropy)
    (r : RandState) : List α × RandState :=
  sampleAux e k population r

/-- `ImageOps.mirror`: horizontal flip. -/
def mirror (image : Image) : Image where
  width := image.width
  height := image.height
  pixel := fun x y => image.pixel (image.width - 1 - x) y

/-- `image.crop((left, top, right, bottom))`. -/
def cropImage (image : Image) (left top right bottom : ℕ) : Image where
  width := right - left
  height := bottom - top
  pixel := fun x y => image.pixel (left + x) (top + y)

/-- `draw.rectangle([l, t, r, b], fill=c)`: PIL fills the rectangle inclusive of both
corners. -/
def fillRect (image : Image) (l t r b : ℕ) (c : ℕ × ℕ × ℕ) : Image where
  width := image.width
  height := image.height
  pixel := fun x y =>
    if l ≤ x ∧ x ≤ r ∧ t ≤ y ∧ y ≤ b then c else image.pixel x y

/-- `np.clip(v, 0, 255).astype(np.uint8)` on one channel: clip to `[0, 255]`, then
truncate to the native integer pixel format. -/
def clipToU8 (q : ℚ) : ℕ :=
  (Int.floor (min 255 (max 0 q))).toNat

/-- `_add_noise` (source lines 422-435): promote to float, add zero-mean gaussian noise
with standard deviation `factor` independently per pixel and channel (raw
standard-normal draws scaled by `factor`), clip to the valid range, convert back to
uint8. One call consumes one `np.random.normal` array draw. -/
def addNoise (image : Image) (factor : ℚ) (e : Entropy) (r : RandState) :
    Image × RandState :=
  ({ width := image.width
     height := image.height
     pixel := fun x y =>
       (clipToU8 (((image.pixel x y).1 : ℚ) + factor * e.gauss r.npIdx x y 0),
        clipToU8 (((image.pixel x y).2.1 : ℚ) + factor * e.gauss r.npIdx x y 1),
        clipToU8 (((image.pixel x y).2.2 : ℚ) + factor * e.gauss r.npIdx x y 2)) },
   { r with npIdx := r.npIdx + 1 })

/-- The `for _ in range(num_patches)` loop of the PATCH_DELETION branch (source lines
390-414): sample a size fraction, compute the patch box, fill it with the configured
color, and record `{position, size_factor}`. -/
def patchLoop (cfg : AugmentationConfig) (e : Entropy) :
    ℕ → Image → RandState → Image × List PatchInfo × RandState
  | 0, img, r => (img, [], r)
  | n + 1, img, r =>
    let s1 := randomUniform cfg.patch_size_range.1 cfg.patch_size_range.2 e r
    let pw := (Int.floor ((img.width : ℚ) * s1.1)).toNat
    let ph := (Int.floor ((img.height : ℚ) * s1.1)).toNat
    let s2 := randomRandint 0 (img.width - pw) e s1.2
    let s3 := randomRandint 0 (img.height - ph) e s2.2
    let img2 := fillRect img s2.1 s3.1 (s2.1 + pw) (s3.1 + ph) cfg.patch_fill_color
    let rest := patchLoop cfg e n img2 s3.2
    (rest.1, ⟨(s2.1, s3.1, s2.1 + pw, s3.1 + ph), s1.1⟩ :: rest.2.1, rest.2.2)

/-- `_apply_augmentation` (source lines 313-420): dispatch on the kind, sample the
kind-specific parameters from the global RNG in source order, produce the transformed
image and the metadata record. -/
def applyAugmentation (ops : PixelOps) (cfg : AugmentationConfig) (e : Entropy)
    (image : Image) (t : AugmentationType) (r : RandState) :
    Image × AugInfo × RandState :=
  match t with
  | .FLIP => (mirror image, .flip, r)
  | .ROTATE =>
    let s := randomUniform cfg.rotation_range.1 cfg.rotation_range.2 e r
    (ops.rotate image s.1, .rotate s.1, s.2)
  | .BRIGHTNESS =>
    let s := randomUniform cfg.brightness_range.1 cfg.brightness_range.2 e r
    (ops.brightness image s.1, .brightness s.1, s.2)
  | .CONTRAST =>
    let s := randomUniform cfg.contrast_range.1 cfg.contrast_range.2 e r
    (ops.contrast image s.1, .contrast s.1, s.2)
  | .BLUR =>
    let s := randomUniform cfg.blur_radius_range.1 cfg.blur_radius_range.2 e r
    (ops.blur image s.1, .blur s.1, s.2)
  | .COLOR =>
    let s := randomUniform cfg.color_factor_range.1 cfg.color_factor_range.2 e r
    (ops.color image s.1, .color s.1, s.2)
  | .CROP =>
    let s := randomUniform cfg.crop_percent_range.1 cfg.crop_percent_range.2 e r
    let nw := (Int.floor ((image.width : ℚ) * s.1)).toNat
    let nh := (Int.floor ((image.height : ℚ) * s.1)).toNat
    let s2 := randomRandint 0 (image.width - nw) e s.2
    let s3 := randomRandint 0 (image.height - nh) e s2.2
    let cropped := cropImage image s2.1 s3.1 (s2.1 + nw) (s3.1 + nh)
    (ops.resize cropped image.width image.height,
     .crop s.1 (s2.1, s3.1, s2.1 + nw, s3.1 + nh), s3.2)
  | .NOISE =>
    let s := randomUniform cfg.noise_factor_range.1 cfg.noise_factor_range.2 e r
    let n := addNoise image s.1 e s.2
    (n.1, .noise s.1, n.2)
  | .PATCH_DELETION =>
    let s := randomRandint cfg.num_patches_range.1 cfg.num_patches_range.2 e r
    let p := patchLoop cfg e s.1 image s.2
    (p.1, .patchDeletion p.2.1 s.1, p.2.2)

/-- The per-variant transform plan (source lines 261-264): copy the enabled list, set
`num_augs` to its full length, and `random.sample` that many elements from it. -/
def planKinds (cfg : AugmentationConfig) (e : Entropy) (r : RandState) :
    List AugmentationType × RandState :=
  let available_types := cfg.enabled_types
  let num_augs := available_types.length
  randomSample available_types num_augs e r

/-- The `for aug_type in aug_types` loop (source lines 270-273): apply each chosen
transform to the running buffer, append its record, bump its statistics counter. -/
def applyAll (ops : PixelOps) (cfg : AugmentationConfig) (e : Entropy) :
    Image → List AugmentationType → Stats → RandState →
      Image × List AugInfo × Stats × RandState
  | img, [], st, r => (img, [], st, r)
  | img, t :: ts, st, r =>
    let a := applyAugmentation ops cfg e img t r
    let rest := applyAll ops cfg e a.1 ts (bumpStat st t) a.2.2
    (rest.1, a.2.1 :: rest.2.1, rest.2.2.1, rest.2.2.2)

/-- Output path derivation of `_augment_item`/`_copy_original_item`: either mirror the
item's path under the output directory or flatten into it (`pathlib` anchor-relative
mirroring abstracted to concatenation; no claim inspects the path shape). -/
def outPath (maintain : Bool) (output_dir item_path name : String) : String :=
  if maintain then output_dir ++ "/" ++ item_path ++ "/" ++ name
  else output_dir ++ "/" ++ name

/-- The `for i in range(self.config.augmentations_per_image - 1)` loop of
`_augment_item` (source lines 260-306), at variant index `i` with `rem` variants left.
`failAt = some j` models an exception raised inside the `try` block while variant `j`
is being produced (transform or write failure): the loop stops and the items
accumulated so far are what the caught handler returns; a produced variant is appended
only after its files are written (source line 306). -/
def variantLoop (ops : PixelOps) (cfg : AugmentationConfig) (e : Entropy)
    (maintain save_metadata : Bool) (output_dir : String)
    (item : DatasetItem) (image : Image) (failAt : Option ℕ) :
    ℕ → ℕ → Stats → RandState → List DatasetItem × Stats × RandState
  | _, 0, st, r => ([], st, r)
  | i, rem + 1, st, r =>
    if failAt = some i then ([], st, r)
    else
      let plan := planKinds cfg e r
      let a := applyAll ops cfg e image plan.1 st plan.2
      let aug_caption := item.caption
      let s1 := randomRandint 1000 9999 e a.2.2.2
      let aug_name := item.filename ++ "_aug_" ++ toString i ++ "_" ++ toString s1.1
      let out_img_path := outPath maintain output_dir item.image_path aug_name
      let s2 := randomRandint 1000 9999 e s1.2
      let new_item : DatasetItem :=
        { key := item.key ++ "_aug_" ++ toString i ++ "_" ++ toString s2.1
          filename := aug_name
          image_path := out_img_path
          caption := aug_caption
          metadata :=
            if save_metadata then
              some { original_path := item.image_path, augmentations := a.2.1 }
            else none }
      let rest := variantLoop ops cfg e maintain save_metadata output_dir item image
        failAt (i + 1) rem a.2.2.1 s2.2
      (new_item :: rest.1, rest.2.1, rest.2.2)

/-- `_augment_item` (source lines 251-311): open the image (decode failure modelled by
`decoded = none`, caught at the task boundary with `new_items = []` returned), then run
the variant loop from index 0 with `augmentations_per_image - 1` variants. -/
def augmentItem (ops : PixelOps) (cfg : AugmentationConfig) (e : Entropy)
    (maintain save_metadata : Bool) (output_dir : String) (item : DatasetItem)
    (decoded : Option Image) (failAt : Option ℕ) (st : Stats) (r : RandState) :
    List DatasetItem × Stats × RandState :=
  match decoded with
  | none => ([], st, r)
  | some image =>
    variantLoop ops cfg e maintain save_metadata output_dir item image failAt 0
      (cfg.augmentations_per_image - 1) st r

/-- `_copy_original_item` (source lines 223-249): write the original image and caption
into the output tree and reassign `item.image_path` as the final statement of the
`try` block; any exception while opening, saving or writing (`copyFails = true`) is
caught after skipping that reassignment, leaving the item unchanged. -/
def copyOriginalItem (maintain : Bool) (output_dir : String) (item : DatasetItem)
    (copyFails : Bool) : DatasetItem :=
  if copyFails then item
  else { item with
          image_path := outPath maintain output_dir item.image_path item.filename }

/-- The copy phase of `augment_dataset` (source lines 178-190): when
`copy_originals` is set, run `_copy_original_item` over every item (the thread pool is
drained to completion before the augmentation phase starts); otherwise the dataset is
used as is. -/
def copyPhase (copy_originals maintain : Bool) (output_dir : String)
    (copyFails : DatasetItem → Bool) (dataset : List DatasetItem) :
    List DatasetItem :=
  if copy_originals then
    dataset.map fun it => copyOriginalItem maintain output_dir it (copyFails it)
  else dataset

/-- The augmentation phase of `augment_dataset` (source lines 193-205) with a worker
pool of size one: each item's task runs `_augment_item` in submission order, any
exception having been absorbed inside `_augment_item` itself, and the per-item result
lists are concatenated in submission order. -/
def augmentLoop (ops : PixelOps) (cfg : AugmentationConfig) (e : Entropy)
    (maintain save_metadata : Bool) (output_dir : String)
    (decoded : String → Option Image) (failAt : DatasetItem → Option ℕ) :
    List DatasetItem → Stats → RandState → List DatasetItem × Stats × RandState
  | [], st, r => ([], st, r)
  | it :: rest, st, r =>
    let a := augmentItem ops cfg e maintain save_metadata output_dir it
      (decoded it.image_path) (failAt it) st r
    let b := augmentLoop ops cfg e maintain save_metadata output_dir decoded failAt
      rest a.2.1 a.2.2
    (a.1 ++ b.1, b.2.1, b.2.2)

/-- `augment_dataset` (source lines 162-221): record `total_original`, run the optional
copy phase, extend the aggregate with the (possibly path-reassigned) originals, run the
augmentation phase over those same items, append all per-item results, and set
`total_augmented` to the size increase. -/
def augmentDataset (ops : PixelOps) (cfg : AugmentationConfig) (e : Entropy)
    (maintain save_metadata copy_originals : Bool) (output_dir : String)
    (copyFails : DatasetItem → Bool) (decoded : String → Option Image)
    (failAt : DatasetItem → Option ℕ) (dataset : List DatasetItem)
    (st : Stats) (r : RandState) : List DatasetItem × Stats × RandState :=
  let st0 : Stats := { st with total_original := dataset.length }
  let base := copyPhase copy_originals maintain output_dir copyFails dataset
  let a := augmentLoop ops cfg e maintain save_metadata output_dir decoded failAt
    base st0 r
  let result := base ++ a.1
  (result,
   { a.2.1 with total_augmented := result.length - dataset.length },
   a.2.2)

/-- The error raised by `DatasetAugmenter.__init__` when a seed is configured. -/
inductive InitError
  | attributeErrorLogger
  deriving DecidableEq, Repr

/-- The fields of a successfully constructed `DatasetAugmenter`. -/
structure Augmenter where
  config : AugmentationConfig
  output_dir : String
  maintain_folder_structure : Bool
  save_metadata : Bool
  num_workers : ℕ
  copy_originals : Bool
  stats : Stats

/-- `DatasetAugmenter.__init__` (source lines 87-133), step by step: the plain field
assignments of lines 107-112 succeed; then the seed block of lines 114-118 runs when
`config.seed is not None`: `random.seed` and `np.random.seed` succeed, but line 118
reads `self.logger`, which is only assigned later at line 125, so the constructor
raises `AttributeError` and no object is produced.  With `seed = None` the block is
skipped and construction completes, ending with the initial statistics dictionary. -/
def initAugmenter (config : AugmentationConfig) (output_dir : String)
    (maintain_folder_structure save_metadata : Bool) (num_workers : ℕ)
    (copy_originals : Bool) : Except InitError Augmenter :=
  match config.seed with
  | some _ => Except.error InitError.attributeErrorLogger
  | none =>
    Except.ok
      { config := config
        output_dir := output_dir
        maintain_folder_structure := maintain_folder_structure
        save_metadata := save_metadata
        num_workers := num_workers
        copy_originals := copy_originals
        stats := initialStats }

/-- `AugmentationType[name]` lookup used by `main` (source line 578). -/
def parseAugType : String → Option AugmentationType
  | "FLIP" => some .FLIP
  | "ROTATE" => some .ROTATE
  | "BRIGHTNESS" => some .BRIGHTNESS
  | "CONTRAST" => some .CONTRAST
  | "BLUR" => some .BLUR
  | "COLOR" => some .COLOR
  | "CROP" => some .CROP
  | "NOISE" => some .NOISE
  | "PATCH_DELETION" => some .PATCH_DELETION
  | _ => none

/-- The configuration-building part of `main` (source lines 574-596): unknown
augmentation-type names are dropped with a printed warning (never an error), and the
config is constructed directly from the parsed arguments — no validation of numeric
ranges and no check that the filtered enabled set is non-empty. -/
def mainBuildConfig (names : List String) (patch_size_range : ℚ × ℚ)
    (num_patches_range : ℕ × ℕ) (patch_fill_color : ℕ × ℕ × ℕ)
    (augmentations : ℕ) (caption_aug : Bool) (seed : Option ℤ) :
    AugmentationConfig :=
  { enabled_types := names.filterMap parseAugType
    patch_size_range := patch_size_range
    num_patches_range := num_patches_range
    patch_fill_color := patch_fill_color
    augmentations_per_image := augmentations
    caption_augmentation := caption_aug
    seed := seed }

/-- Well-formedness of the configured ranges named by the spec: each `(min, max)` pair
satisfies `min ≤ max`. -/
def WellFormed (cfg : AugmentationConfig) : Prop :=
  cfg.rotation_range.1 ≤ cfg.rotation_range.2 ∧
  cfg.brightness_range.1 ≤ cfg.brightness_range.2 ∧
  cfg.contrast_range.1 ≤ cfg.contrast_range.2 ∧
  cfg.blur_radius_range.1 ≤ cfg.blur_radius_range.2 ∧
  cfg.color_factor_range.1 ≤ cfg.color_factor_range.2 ∧
  cfg.crop_percent_range.1 ≤ cfg.crop_percent_range.2 ∧
  cfg.noise_factor_range.1 ≤ cfg.noise_factor_range.2 ∧
  cfg.patch_size_range.1 ≤ cfg.patch_size_range.2 ∧
  cfg.num_patches_range.1 ≤ cfg.num_patches_range.2

instance (cfg : AugmentationConfig) : Decidable (WellFormed cfg) := by
  unfold WellFormed; infer_instance

/-- The in-range property of one transform record, with respect to the configured
ranges: the sampled parameter lies within its `[min, max]` interval; a patch-deletion
record carries exactly `num_patches` entries, a count within the configured range, and
every patch's size factor within the configured range. -/
def RecordInRange (cfg : AugmentationConfig) : AugInfo → Prop
  | .flip => True
  | .rotate a => cfg.rotation_range.1 ≤ a ∧ a ≤ cfg.rotation_range.2
  | .brightness f => cfg.brightness_range.1 ≤ f ∧ f ≤ cfg.brightness_range.2
  | .contrast f => cfg.contrast_range.1 ≤ f ∧ f ≤ cfg.contrast_range.2
  | .blur ra => cfg.blur_radius_range.1 ≤ ra ∧ ra ≤ cfg.blur_radius_range.2
  | .color f => cfg.color_factor_range.1 ≤ f ∧ f ≤ cfg.color_factor_range.2
  | .crop p _ => cfg.crop_percent_range.1 ≤ p ∧ p ≤ cfg.crop_percent_range.2
  | .noise f => cfg.noise_factor_range.1 ≤ f ∧ f ≤ cfg.noise_factor_range.2
  | .patchDeletion ps n =>
    ps.length = n ∧ cfg.num_patches_range.1 ≤ n ∧ n ≤ cfg.num_patches_range.2 ∧
      ∀ p ∈ ps, cfg.patch_size_range.1 ≤ p.size_factor ∧
        p.size_factor ≤ cfg.patch_size_range.2

/-- The kind of a transform record. -/
def kindOf : AugInfo → AugmentationType
  | .flip => .FLIP
  | .rotate _ => .ROTATE
  | .brightness _ => .BRIGHTNESS
  | .contrast _ => .CONTRAST
  | .blur _ => .BLUR
  | .color _ => .COLOR
  | .crop _ _ => .CROP
  | .noise _ => .NOISE
  | .patchDeletion _ _ => .PATCH_DELETION

/-- How many output items one source item contributes: zero when its image fails to
decode; all `n` variants when nothing fails; the variants completed before index `j`
when an exception is raised while producing variant `j`. -/
def contribLen (decoded : Option Image) (failAt : Option ℕ) (n : ℕ) : ℕ :=
  match decoded, failAt with
  | none, _ => 0
  | some _, none => n
  | some _, some j => min j n

/-- Identity instantiation of the abstract interpolating pixel operations, used only
to pick concrete inputs for closed statements. -/
def trivialOps : PixelOps where
  rotate := fun i _ => i
  brightness := fun i _ => i
  contrast := fun i _ => i
  blur := fun i _ => i
  color := fun i _ => i
  resize := fun i _ _ => i

/-- A concrete entropy source: every raw unit draw is 1/2, every raw integer draw is 0,
every raw gaussian draw is 0. -/
def constEntropy : Entropy where
  uni := fun _ => 1/2
  int := fun _ => 0
  gauss := fun _ _ _ _ => 0

/-- Fresh randomness indices. -/
def zeroState : RandState := ⟨0, 0, 0⟩

/-- A concrete 4×4 all-grey test image. -/
def greyImage : Image := ⟨4, 4, fun _ _ => (9, 9, 9)⟩

/-- A concrete source dataset item. -/
def itemW : DatasetItem := ⟨"k", "f", "p", "c", none⟩

/-- A concrete config that keeps the dataclass default `seed = 16`. -/
def cfgSeeded : AugmentationConfig := { enabled_types := [.FLIP] }

/-- Concrete config for the failure-isolation counterexample: three augmentations per
image, so the per-item loop produces two variants. -/
def cfgC2 : AugmentationConfig :=
  { enabled_types := [.FLIP], augmentations_per_image := 3, seed := none }

/-- Concrete config with caption rewriting switched on. -/
def cfgC3 : AugmentationConfig :=
  { enabled_types := [.FLIP], augmentations_per_image := 2,
    caption_augmentation := true, seed := none }

/-- Concrete config whose enabled set is `{FLIP, ROTATE}`. -/
def cfgAB : AugmentationConfig :=
  { enabled_types := [.FLIP, .ROTATE], seed := none }

/-- Concrete config with an inverted (min > max) rotation range. -/
def cfgInv : AugmentationConfig :=
  { enabled_types := [.ROTATE], rotation_range := (10, -10), seed := none }

/-- Concrete config for the record-range witness. -/
def cfgC6 : AugmentationConfig :=
  { enabled_types := [.ROTATE], augmentations_per_image := 2, seed := none }

/-- Concrete config for scenario A: kinds `{FLIP, ROTATE}`, two augmentations per
image, copy-originals enabled at the call site. -/
def cfgC7 : AugmentationConfig :=
  { enabled_types := [.FLIP, .ROTATE], augmentations_per_image := 2, seed := none }

/-- Concrete config for the patch-fill witness: exactly one patch of half the image
dimensions. -/
def cfgC8 : AugmentationConfig :=
  { enabled_types := [.PATCH_DELETION], num_patches_range := (1, 1),
    patch_size_range := (1/2, 1/2), seed := none }

/-- A concrete ten-item source dataset. -/
def dataset10 : List DatasetItem := List.replicate 10 itemW

/-- The variant produced by `_augment_item` from `itemW` under `cfgC6` and
`constEntropy`: one ROTATE transform with sampled angle 0. -/
def outC6 : DatasetItem :=
  { key := "k_aug_0_1000"
    filename := "f_aug_0_1000"
    image_path := "out/f_aug_0_1000"
    caption := "c"
    metadata := some ⟨"p", [AugInfo.rotate 0]⟩ }

theorem randomUniform_mem (a b : ℚ) (e : Entropy) (r : RandState) (h : a ≤ b)
    (he : ValidEntropy e) :
    a ≤ (randomUniform a b e r).1 ∧ (randomUniform a b e r).1 ≤ b := by
  have h0 := (he r.uniIdx).1
  have h1 := (he r.uniIdx).2
  simp only [randomUniform]
  constructor
  · nlinarith [mul_nonneg (sub_nonneg.mpr h) h0]
  · nlinarith [mul_le_of_le_one_right (sub_nonneg.mpr h) (le_of_lt h1)]

theorem randomRandint_mem (a b : ℕ) (e : Entropy) (r : RandState) (h : a ≤ b) :
    a ≤ (randomRandint a b e r).1 ∧ (randomRandint a b e r).1 ≤ b := by
  simp only [randomRandint]
  have hmod : e.int r.intIdx % (b + 1 - a) < b + 1 - a := Nat.mod_lt _ (by omega)
  generalize e.int r.intIdx % (b + 1 - a) = m at hmod
  omega

theorem get_cons_eraseIdx_perm {α : Type} :
    ∀ (l : List α) (j : ℕ) (h : j < l.length),
      List.Perm (l.get ⟨j, h⟩ :: l.eraseIdx j) l := by
  intro l
  induction l with
  | nil => intro j h; simp at h
  | cons a l ih =>
    intro j h
    cases j with
    | zero =>
      simp only [List.eraseIdx_cons_zero, List.get_cons_zero]
      exact List.Perm.refl _
    | succ j =>
      simp only [List.eraseIdx_cons_succ, List.get_cons_succ]
      exact (List.Perm.swap a _ _).trans ((ih j (by simpa using h)).cons a)

theorem sampleAux_length {α : Type} (e : Entropy) :
    ∀ (k : ℕ) (pool : List α) (r : RandState), k ≤ pool.length →
      (sampleAux e k pool r).1.length = k := by
  intro k
  induction k with
  | zero => intro pool r _; rfl
  | succ k ih =>
    intro pool r hk
    have hp : 0 < pool.length := by omega
    simp only [sampleAux, dif_pos hp, List.length_cons]
    rw [ih]
    rw [List.length_eraseIdx, if_pos (Nat.mod_lt _ hp)]
    omega

theorem sampleAux_perm {α : Type} (e : Entropy) :
    ∀ (k : ℕ) (pool : List α) (r : RandState), k = pool.length →
      List.Perm (sampleAux e k pool r).1 pool := by
  intro k
  induction k with
  | zero =>
    intro pool r hk
    have hnil : pool = [] := List.length_eq_zero.mp hk.symm
    subst hnil
    exact List.Perm.refl _
  | succ k ih =>
    intro pool r hk
    have hp : 0 < pool.length := by omega
    simp only [sampleAux, dif_pos hp]
    refine ((ih _ _ ?_).cons _).trans (get_cons_eraseIdx_perm pool _ _)
    rw [List.length_eraseIdx, if_pos (Nat.mod_lt _ hp)]
    omega

/-- The transform plan of every variant is a permutation of the full enabled list:
`random.sample` is called with `num_augs = len(available_types)`. -/
theorem planKinds_perm (cfg : AugmentationConfig) (e : Entropy) (r : RandState) :
    List.Perm (planKinds cfg e r).1 cfg.enabled_types :=
  sampleAux_perm e _ _ _ rfl

theorem patchLoop_length (cfg : AugmentationConfig) (e : Entropy) :
    ∀ (n : ℕ) (img : Image) (r : RandState),
      ((patchLoop cfg e n img r).2.1).length = n := by
  intro n
  induction n with
  | zero => intro img r; rfl
  | succ n ih =>
    intro img r
    simp only [patchLoop, List.length_cons, ih]

theorem patchLoop_sizes (cfg : AugmentationConfig) (e : Entropy)
    (hwf : cfg.patch_size_range.1 ≤ cfg.patch_size_range.2) (he : ValidEntropy e) :
    ∀ (n : ℕ) (img : Image) (r : RandState),
      ∀ p ∈ (patchLoop cfg e n img r).2.1,
        cfg.patch_size_range.1 ≤ p.size_factor ∧
          p.size_factor ≤ cfg.patch_size_range.2 := by
  intro n
  induction n with
  | zero => intro img r p hp; simp [patchLoop] at hp
  | succ n ih =>
    intro img r p hp
    simp only [patchLoop, List.mem_cons] at hp
    rcases hp with hp | hp
    · subst hp
      exact randomUniform_mem _ _ e r hwf he
    · exact ih _ _ p hp

theorem patchLoop_preserve (cfg : AugmentationConfig) (e : Entropy) :
    ∀ (n : ℕ) (img : Image) (r : RandState) (x y : ℕ),
      img.pixel x y = cfg.patch_fill_color →
        ((patchLoop cfg e n img r).1).pixel x y = cfg.patch_fill_color := by
  intro n
  induction n with
  | zero => intro img r x y h; exact h
  | succ n ih =>
    intro img r x y h
    simp only [patchLoop]
    apply ih
    simp only [fillRect]
    split
    · rfl
    · exact h

theorem patchLoop_fill (cfg : AugmentationConfig) (e : Entropy) :
    ∀ (n : ℕ) (img : Image) (r : RandState),
      ∀ p ∈ (patchLoop cfg e n img r).2.1,
        ∀ x y : ℕ, p.position.1 ≤ x → x ≤ p.position.2.2.1 →
          p.position.2.1 ≤ y → y ≤ p.position.2.2.2 →
            ((patchLoop cfg e n img r).1).pixel x y = cfg.patch_fill_color := by
  intro n
  induction n with
  | zero => intro img r p hp; simp [patchLoop] at hp
  | succ n ih =>
    intro img r p hp x y h1 h2 h3 h4
    simp only [patchLoop, List.mem_cons] at hp
    simp only [patchLoop]
    rcases hp with hp | hp
    · subst hp
      apply patchLoop_preserve
      simp only [fillRect]
      rw [if_pos]
      exact ⟨h1, h2, h3, h4⟩
    · exact ih _ _ p hp x y h1 h2 h3 h4

/-- Every record produced by `_apply_augmentation` has its sampled parameters within
the configured ranges. -/
theorem applyAugmentation_record (ops : PixelOps) (cfg : AugmentationConfig)
    (e : Entropy) (img : Image) (t : AugmentationType) (r : RandState)
    (hwf : WellFormed cfg) (he : ValidEntropy e) :
    RecordInRange cfg (applyAugmentation ops cfg e img t r).2.1 := by
  obtain ⟨h1, h2, h3, h4, h5, h6, h7, h8, h9⟩ := hwf
  cases t with
  | FLIP => trivial
  | ROTATE => exact randomUniform_mem _ _ e r h1 he
  | BRIGHTNESS => exact randomUniform_mem _ _ e r h2 he
  | CONTRAST => exact randomUniform_mem _ _ e r h3 he
  | BLUR => exact randomUniform_mem _ _ e r h4 he
  | COLOR => exact randomUniform_mem _ _ e r h5 he
  | CROP => exact randomUniform_mem _ _ e r h6 he
  | NOISE => exact randomUniform_mem _ _ e r h7 he
  | PATCH_DELETION =>
    refine ⟨patchLoop_length cfg e _ _ _, ?_, ?_, patchLoop_sizes cfg e h8 he _ _ _⟩
    · exact (randomRandint_mem _ _ e r h9).1
    · exact (randomRandint_mem _ _ e r h9).2

/-- The kind tag of the record produced by `_apply_augmentation` is the dispatched
kind. -/
theorem applyAugmentation_kind (ops : PixelOps) (cfg : AugmentationConfig)
    (e : Entropy) (img : Image) (t : AugmentationType) (r : RandState) :
    kindOf (applyAugmentation ops cfg e img t r).2.1 = t := by
  cases t <;> rfl

theorem applyAll_records (ops : PixelOps) (cfg : AugmentationConfig) (e : Entropy)
    (hwf : WellFormed cfg) (he : ValidEntropy e) :
    ∀ (ts : List AugmentationType) (img : Image) (st : Stats) (r : RandState),
      ∀ info ∈ (applyAll ops cfg e img ts st r).2.1, RecordInRange cfg info := by
  intro ts
  induction ts with
  | nil => intro img st r info h; simp [applyAll] at h
  | cons t ts ih =>
    intro img st r info h
    simp only [applyAll, List.mem_cons] at h
    rcases h with h | h
    · subst h
      exact applyAugmentation_record ops cfg e img t r hwf he
    · exact ih _ _ _ info h

/-- The records of `_augment_item`'s inner loop follow the chosen kinds in exactly the
application order. -/
theorem applyAll_kinds (ops : PixelOps) (cfg : AugmentationConfig) (e : Entropy) :
    ∀ (ts : List AugmentationType) (img : Image) (st : Stats) (r : RandState),
      ((applyAll ops cfg e img ts st r).2.1).map kindOf = ts := by
  intro ts
  induction ts with
  | nil => intro img st r; rfl
  | cons t ts ih =>
    intro img st r
    simp only [applyAll, List.map_cons, ih, applyAugmentation_kind]

theorem variantLoop_length_none (ops : PixelOps) (cfg : AugmentationConfig)
    (e : Entropy) (maintain sm : Bool) (od : String) (item : DatasetItem)
    (image : Image) :
    ∀ (rem i : ℕ) (st : Stats) (r : RandState),
      (variantLoop ops cfg e maintain sm od item image none i rem st r).1.length =
        rem := by
  intro rem
  induction rem with
  | zero => intro i st r; rfl
  | succ rem ih =>
    intro i st r
    simp only [variantLoop]
    rw [if_neg (by simp)]
    simp only [List.length_cons, ih]

theorem variantLoop_length_some (ops : PixelOps) (cfg : AugmentationConfig)
    (e : Entropy) (maintain sm : Bool) (od : String) (item : DatasetItem)
    (image : Image) (j : ℕ) :
    ∀ (rem i : ℕ), i ≤ j → ∀ (st : Stats) (r : RandState),
      (variantLoop ops cfg e maintain sm od item image (some j) i rem st r).1.length =
        min (j - i) rem := by
  intro rem
  induction rem with
  | zero => intro i hij st r; simp [variantLoop]
  | succ rem ih =>
    intro i hij st r
    simp only [variantLoop]
    by_cases hji : (some j : Option ℕ) = some i
    · rw [if_pos hji]
      have hj : j = i := by injection hji
      subst hj
      simp
    · rw [if_neg hji]
      have hlt : i < j := by
        have : j ≠ i := fun hc => hji (by rw [hc])
        omega
      simp only [List.length_cons, ih (i + 1) (by omega)]
      omega

theorem variantLoop_records (ops : PixelOps) (cfg : AugmentationConfig) (e : Entropy)
    (maintain sm : Bool) (od : String) (item : DatasetItem) (image : Image)
    (failAt : Option ℕ) (hwf : WellFormed cfg) (he : ValidEntropy e) :
    ∀ (rem i : ℕ) (st : Stats) (r : RandState),
      ∀ out ∈ (variantLoop ops cfg e maintain sm od item image failAt i rem st r).1,
        ∀ m, out.metadata = some m →
          ∀ info ∈ m.augmentations, RecordInRange cfg info := by
  intro rem
  induction rem with
  | zero => intro i st r out hout; simp [variantLoop] at hout
  | succ rem ih =>
    intro i st r out hout m hm info hinfo
    simp only [variantLoop] at hout
    split at hout
    · simp at hout
    · simp only [List.mem_cons] at hout
      rcases hout with hout | hout
      · subst hout
        dsimp only at hm
        split at hm
        · injection hm with hm2
          subst hm2
          exact applyAll_records ops cfg e hwf he _ _ _ _ info hinfo
        · exact absurd hm (by simp)
      · exact ih (i + 1) _ _ out hout m hm info hinfo

theorem augmentItem_length (ops : PixelOps) (cfg : AugmentationConfig) (e : Entropy)
    (maintain sm : Bool) (od : String) (item : DatasetItem) (dec : Option Image)
    (fa : Option ℕ) (st : Stats) (r : RandState) :
    (augmentItem ops cfg e maintain sm od item dec fa st r).1.length =
      contribLen dec fa (cfg.augmentations_per_image - 1) := by
  cases dec with
  | none => rfl
  | some image =>
    cases fa with
    | none =>
      exact variantLoop_length_none ops cfg e maintain sm od item image _ 0 st r
    | some j =>
      have h := variantLoop_length_some ops cfg e maintain sm od item image j
        (cfg.augmentations_per_image - 1) 0 (Nat.zero_le j) st r
      simpa using h

theorem augmentItem_records (ops : PixelOps) (cfg : AugmentationConfig) (e : Entropy)
    (maintain sm : Bool) (od : String) (item : DatasetItem) (dec : Option Image)
    (fa : Option ℕ) (st : Stats) (r : RandState)
    (hwf : WellFormed cfg) (he : ValidEntropy e) :
    ∀ out ∈ (augmentItem ops cfg e maintain sm od item dec fa st r).1,
      ∀ m, out.metadata = some m →
        ∀ info ∈ m.augmentations, RecordInRange cfg info := by
  cases dec with
  | none => intro out hout; simp [augmentItem] at hout
  | some image =>
    intro out hout
    exact variantLoop_records ops cfg e maintain sm od item image fa hwf he _ 0 st r
      out hout

theorem augmentLoop_length (ops : PixelOps) (cfg : AugmentationConfig) (e : Entropy)
    (maintain sm : Bool) (od : String) (decoded : String → Option Image)
    (failAt : DatasetItem → Option ℕ) :
    ∀ (items : List DatasetItem) (st : Stats) (r : RandState),
      (augmentLoop ops cfg e maintain sm od decoded failAt items st r).1.length =
        (items.map fun it =>
          contribLen (decoded it.image_path) (failAt it)
            (cfg.augmentations_per_image - 1)).sum := by
  intro items
  induction items with
  | nil => intro st r; rfl
  | cons it rest ih =>
    intro st r
    simp only [augmentLoop, List.length_append, List.map_cons, List.sum_cons,
      augmentItem_length, ih]

theorem augmentLoop_decomp (ops : PixelOps) (cfg : AugmentationConfig) (e : Entropy)
    (maintain sm : Bool) (od : String) (decoded : String → Option Image)
    (failAt : DatasetItem → Option ℕ) :
    ∀ (items : List DatasetItem) (st : Stats) (r : RandState) (it : DatasetItem),
      it ∈ items →
        ∃ st2 r2 pre post,
          (augmentLoop ops cfg e maintain sm od decoded failAt items st r).1 =
            pre ++ (augmentItem ops cfg e maintain sm od it (decoded it.image_path)
              (failAt it) st2 r2).1 ++ post := by
  intro items
  induction items with
  | nil => intro st r it h; simp at h
  | cons a rest ih =>
    intro st r it h
    rcases List.mem_cons.mp h with h | h
    · subst h
      refine ⟨st, r, [],
        (augmentLoop ops cfg e maintain sm od decoded failAt rest
          (augmentItem ops cfg e maintain sm od it (decoded it.image_path)
            (failAt it) st r).2.1
          (augmentItem ops cfg e maintain sm od it (decoded it.image_path)
            (failAt it) st r).2.2).1, ?_⟩
      simp only [augmentLoop, List.nil_append]
    · obtain ⟨st2, r2, pre, post, heq⟩ := ih
        (augmentItem ops cfg e maintain sm od a (decoded a.image_path) (failAt a)
          st r).2.1
        (augmentItem ops cfg e maintain sm od a (decoded a.image_path) (failAt a)
          st r).2.2 it h
      refine ⟨st2, r2,
        (augmentItem ops cfg e maintain sm od a (decoded a.image_path) (failAt a)
          st r).1 ++ pre, post, ?_⟩
      simp only [augmentLoop, heq, List.append_assoc]

theorem copyPhase_length (co maintain : Bool) (od : String)
    (cf : DatasetItem → Bool) (dataset : List DatasetItem) :
    (copyPhase co maintain od cf dataset).length = dataset.length := by
  unfold copyPhase
  split <;> simp

/-- The aggregate returned by `augment_dataset` is the (possibly copied) originals
followed by the concatenated per-item augmentation results. -/
theorem augmentDataset_fst (ops : PixelOps) (cfg : AugmentationConfig) (e : Entropy)
    (maintain sm co : Bool) (od : String) (cf : DatasetItem → Bool)
    (decoded : String → Option Image) (failAt : DatasetItem → Option ℕ)
    (dataset : List DatasetItem) (st : Stats) (r : RandState) :
    (augmentDataset ops cfg e maintain sm co od cf decoded failAt dataset st r).1 =
      copyPhase co maintain od cf dataset ++
        (augmentLoop ops cfg e maintain sm od decoded failAt
          (copyPhase co maintain od cf dataset)
          { st with total_original := dataset.length } r).1 := rfl

/-- C1: with the default non-None seed the `DatasetAugmenter` constructor raises
`AttributeError` — line 118 reads `self.logger` before line 125 assigns it — so with a
fixed non-None seed the pipeline cannot even be constructed, let alone run twice to
byte-identical outputs. -/
theorem c1_seeded_init_raises :
    initAugmenter cfgSeeded "out" true true 1 true =
      Except.error InitError.attributeErrorLogger := rfl

/-- C2 counterexample: an item whose processing raises at variant index 1 (of the two
variants configured by `augmentations_per_image = 3`) still contributes the variant
completed before the failure — one output item, not zero. -/
theorem c2_counterexample :
    (augmentItem trivialOps cfgC2 constEntropy false true "out" itemW
      (some greyImage) (some 1) initialStats zeroState).1.length = 1 := rfl

/-- C2 (amended): every per-item failure is absorbed inside the item's own task: the
aggregate always consists of the originals plus, for every item, exactly the variants
it completed before its failure point (`contribLen`: zero for a decode failure or a
failure during the first variant, all `N-1` when nothing fails) — the batch never
aborts and other items' contributions are unaffected.  (The `Stats` structure, the
faithful image of `self.stats`, has no error counter; failures are only logged.) -/
theorem c2_failure_isolation (ops : PixelOps) (cfg : AugmentationConfig) (e : Entropy)
    (maintain sm co : Bool) (od : String) (cf : DatasetItem → Bool)
    (decoded : String → Option Image) (failAt : DatasetItem → Option ℕ)
    (dataset : List DatasetItem) (st : Stats) (r : RandState) :
    (augmentDataset ops cfg e maintain sm co od cf decoded failAt dataset st r).1.length =
      dataset.length +
        ((copyPhase co maintain od cf dataset).map fun it =>
          contribLen (decoded it.image_path) (failAt it)
            (cfg.augmentations_per_image - 1)).sum := by
  rw [augmentDataset_fst, List.length_append, copyPhase_length, augmentLoop_length]

/-- C3: caption rewriting is not implemented.  With `caption_augmentation = True` and a
variant whose transform-record list is the non-empty `[flip]`, the persisted caption
still equals the original caption unchanged (`_augment_item` line 276 assigns
`aug_caption = item.caption` unconditionally). -/
theorem c3_caption_not_rewritten :
    cfgC3.caption_augmentation = true ∧
    (augmentItem trivialOps cfgC3 constEntropy false true "out" itemW
        (some greyImage) none initialStats zeroState).1.map DatasetItem.caption =
      [itemW.caption] ∧
    (augmentItem trivialOps cfgC3 constEntropy false true "out" itemW
        (some greyImage) none initialStats zeroState).1.map DatasetItem.metadata =
      [some ⟨itemW.image_path, [AugInfo.flip]⟩] :=
  ⟨rfl, rfl, rfl⟩

/-- C4 counterexample: with enabled kinds `{FLIP, ROTATE}`, no entropy source and no
randomness state make the variant's chosen kind set a strict subset of the enabled
set — `random.sample` is always called with the full enabled count. -/
theorem c4_counterexample :
    ¬ ∃ (e : Entropy) (r : RandState),
      ((planKinds cfgAB e r).1).toFinset ⊂ cfgAB.enabled_types.toFinset := by
  rintro ⟨e, r, hsub⟩
  have hperm := planKinds_perm cfgAB e r
  have heq : ((planKinds cfgAB e r).1).toFinset = cfgAB.enabled_types.toFinset := by
    ext x
    simp only [List.mem_toFinset]
    exact hperm.mem_iff
  rw [heq] at hsub
  exact ssubset_irrefl _ hsub

/-- C4 (amended): for every variant the planner draws a uniformly random permutation
of the entire enabled-kind list (`num_augs` equals the full enabled count, so the
chosen kinds are never a strict subset), and the sampled order is used as the
application order with no canonical reordering: the produced records follow the
sampled list exactly. -/
theorem c4_full_permutation_plan (cfg : AugmentationConfig) (e : Entropy)
    (r : RandState) (ops : PixelOps) (img : Image) (st : Stats) (r2 : RandState) :
    List.Perm (planKinds cfg e r).1 cfg.enabled_types ∧
      ((applyAll ops cfg e img (planKinds cfg e r).1 st r2).2.1).map kindOf =
        (planKinds cfg e r).1 :=
  ⟨planKinds_perm cfg e r, applyAll_kinds ops cfg e _ img st r2⟩

/-- C5 counterexample: a configuration whose requested kind names are all unknown is
filtered to an empty enabled set, yet `main` raises no error: the augmenter is
constructed (the CLI default seed is None) and the pipeline proceeds to schedule and
complete augmentation work (1 original + 1 variant with an empty transform list);
likewise an inverted `rotation_range = (10, -10)` is accepted and processed. -/
theorem c5_counterexample :
    (mainBuildConfig ["BOGUS"] (1/10, 3/10) (1, 3) (0, 0, 0) 2 false
      none).enabled_types = [] ∧
    (∃ a, initAugmenter
      (mainBuildConfig ["BOGUS"] (1/10, 3/10) (1, 3) (0, 0, 0) 2 false none)
      "out" false true 4 true = Except.ok a) ∧
    (augmentDataset trivialOps
      (mainBuildConfig ["BOGUS"] (1/10, 3/10) (1, 3) (0, 0, 0) 2 false none)
      constEntropy false true true "out" (fun _ => false) (fun _ => some greyImage)
      (fun _ => none) [itemW] initialStats zeroState).1.length = 2 ∧
    (augmentDataset trivialOps cfgInv constEntropy false true true "out"
      (fun _ => false) (fun _ => some greyImage) (fun _ => none) [itemW]
      initialStats zeroState).1.length = 2 :=
  ⟨rfl, ⟨_, rfl⟩, rfl, rfl⟩

/-- C5 (amended): `main` performs no configuration validation: unknown kind names are
dropped with a warning, and a configuration whose enabled set is empty after filtering
is accepted as is — the augmenter is constructed (the CLI seed default is None) and
augmentation work is scheduled and completes over the whole dataset. -/
theorem c5_no_validation (names : List String) (ps : ℚ × ℚ) (np : ℕ × ℕ)
    (pc : ℕ × ℕ × ℕ) (n : ℕ) (cap : Bool) (ops : PixelOps) (e : Entropy)
    (maintain sm : Bool) (od : String) (w : ℕ) (cf : DatasetItem → Bool)
    (decoded : String → Option Image) (failAt : DatasetItem → Option ℕ)
    (dataset : List DatasetItem) (st : Stats) (r : RandState)
    (hempty : (mainBuildConfig names ps np pc n cap none).enabled_types = []) :
    (∃ a, initAugmenter (mainBuildConfig names ps np pc n cap none) od maintain sm w
      true = Except.ok a) ∧
    (augmentDataset ops (mainBuildConfig names ps np pc n cap none) e maintain sm
      true od cf decoded failAt dataset st r).1.length =
      dataset.length +
        ((copyPhase true maintain od cf dataset).map fun it =>
          contribLen (decoded it.image_path) (failAt it) (n - 1)).sum := by
  refine ⟨⟨_, rfl⟩, ?_⟩
  rw [augmentDataset_fst, List.length_append, copyPhase_length, augmentLoop_length]
  rfl

/-- C5 witness for `c5_no_validation` at the concrete unknown name list `["BOGUS"]`. -/
theorem c5_no_validation_witness :
    (mainBuildConfig ["BOGUS"] (1/10, 3/10) (1, 3) (0, 0, 0) 2 false
      none).enabled_types = [] ∧
    ((∃ a, initAugmenter
        (mainBuildConfig ["BOGUS"] (1/10, 3/10) (1, 3) (0, 0, 0) 2 false none)
        "o" false true 1 true = Except.ok a) ∧
      (augmentDataset trivialOps
        (mainBuildConfig ["BOGUS"] (1/10, 3/10) (1, 3) (0, 0, 0) 2 false none)
        constEntropy false true true "o" (fun _ => false) (fun _ => some greyImage)
        (fun _ => none) [itemW] initialStats zeroState).1.length =
        [itemW].length +
          ((copyPhase true false "o" (fun _ => false) [itemW]).map fun it =>
            contribLen ((fun _ : String => some greyImage) it.image_path)
              ((fun _ : DatasetItem => (none : Option ℕ)) it) (2 - 1)).sum) :=
  ⟨rfl, c5_no_validation ["BOGUS"] (1/10, 3/10) (1, 3) (0, 0, 0) 2 false trivialOps
    constEntropy false true "o" 1 (fun _ => false) (fun _ => some greyImage)
    (fun _ => none) [itemW] initialStats zeroState rfl⟩

/-- C6: in every variant produced by `_augment_item`, every recorded transform's
sampled parameters lie within the configured `[min, max]` ranges (rotation angle,
brightness/contrast/color factors, blur radius, crop fraction, noise standard
deviation, patch size fraction, patch count), and with `num_patches_range = (2, 2)`
every patch-deletion record contains exactly 2 patch entries. -/
theorem c6_records_in_range (ops : PixelOps) (cfg : AugmentationConfig) (e : Entropy)
    (maintain sm : Bool) (od : String) (item : DatasetItem) (img : Image)
    (fa : Option ℕ) (st : Stats) (r : RandState)
    (hwf : WellFormed cfg) (he : ValidEntropy e) :
    ∀ out ∈ (augmentItem ops cfg e maintain sm od item (some img) fa st r).1,
      ∀ m, out.metadata = some m → ∀ info ∈ m.augmentations,
        RecordInRange cfg info ∧
          (cfg.num_patches_range = (2, 2) →
            ∀ ps n, info = AugInfo.patchDeletion ps n → ps.length = 2) := by
  intro out hout m hm info hinfo
  have hrec := augmentItem_records ops cfg e maintain sm od item (some img) fa st r
    hwf he out hout m hm info hinfo
  refine ⟨hrec, ?_⟩
  intro h22 ps n hinfo2
  subst hinfo2
  obtain ⟨hlen, hmin, hmax, _⟩ := hrec
  rw [h22] at hmin hmax
  have h1 : 2 ≤ n := hmin
  have h2 : n ≤ 2 := hmax
  omega

/-- C6 witness: the concrete variant `outC6` produced from `itemW` under `cfgC6` with
the constant entropy source carries the single record `rotate 0`, which is in range. -/
theorem c6_records_in_range_witness :
    WellFormed cfgC6 ∧ ValidEntropy constEntropy ∧
      (RecordInRange cfgC6 (AugInfo.rotate 0) ∧
        (cfgC6.num_patches_range = (2, 2) →
          ∀ ps n, AugInfo.rotate 0 = AugInfo.patchDeletion ps n → ps.length = 2)) := by
  have hwf : WellFormed cfgC6 := by unfold WellFormed; norm_num [cfgC6]
  have he : ValidEntropy constEntropy := by
    intro i
    constructor <;> norm_num [constEntropy]
  refine ⟨hwf, he, ?_⟩
  have heq : (augmentItem trivialOps cfgC6 constEntropy false true "out" itemW
      (some greyImage) none initialStats zeroState).1 = [outC6] := by
    simp only [augmentItem, variantLoop, planKinds, randomSample, sampleAux,
      applyAll, applyAugmentation, randomUniform, randomRandint, outPath,
      constEntropy, cfgC6, itemW, greyImage, zeroState, initialStats, bumpStat,
      outC6]
    norm_num
    rfl
  have hmem : outC6 ∈ (augmentItem trivialOps cfgC6 constEntropy false true "out"
      itemW (some greyImage) none initialStats zeroState).1 := by
    rw [heq]
    exact List.mem_singleton.mpr rfl
  exact c6_records_in_range trivialOps cfgC6 constEntropy false true "out" itemW
    greyImage none initialStats zeroState hwf he outC6 hmem
    ⟨"p", [AugInfo.rotate 0]⟩ rfl (AugInfo.rotate 0) (List.mem_singleton.mpr rfl)

/-- C7: with copy-originals enabled and no per-item failures, the aggregate returned
by `augment_dataset` is the `k` (copied) originals followed by exactly
`k * (N - 1)` augmented items, `N = augmentations_per_image`. -/
theorem c7_output_count (ops : PixelOps) (cfg : AugmentationConfig) (e : Entropy)
    (maintain sm : Bool) (od : String) (cf : DatasetItem → Bool)
    (decoded : String → Option Image) (failAt : DatasetItem → Option ℕ)
    (dataset : List DatasetItem) (st : Stats) (r : RandState)
    (hdec : ∀ p, (decoded p).isSome = true) (hfa : ∀ it, failAt it = none) :
    ∃ newItems,
      (augmentDataset ops cfg e maintain sm true od cf decoded failAt dataset st
          r).1 =
        copyPhase true maintain od cf dataset ++ newItems ∧
      newItems.length = dataset.length * (cfg.augmentations_per_image - 1) ∧
      (augmentDataset ops cfg e maintain sm true od cf decoded failAt dataset st
          r).1.length =
        dataset.length + dataset.length * (cfg.augmentations_per_image - 1) := by
  have hnew : (augmentLoop ops cfg e maintain sm od decoded failAt
      (copyPhase true maintain od cf dataset)
      { st with total_original := dataset.length } r).1.length =
      dataset.length * (cfg.augmentations_per_image - 1) := by
    rw [augmentLoop_length]
    have hmap : ∀ it ∈ copyPhase true maintain od cf dataset,
        contribLen (decoded it.image_path) (failAt it)
          (cfg.augmentations_per_image - 1) = cfg.augmentations_per_image - 1 := by
      intro it _
      have h1 := hdec it.image_path
      rw [hfa it]
      cases hd : decoded it.image_path with
      | none => rw [hd] at h1; simp at h1
      | some img => rfl
    rw [List.map_congr_left hmap, List.map_const', List.sum_replicate, smul_eq_mul,
      copyPhase_length]
  refine ⟨_, augmentDataset_fst ops cfg e maintain sm true od cf decoded failAt
    dataset st r, hnew, ?_⟩
  rw [augmentDataset_fst, List.length_append, copyPhase_length, hnew]

/-- C7 witness: ten source items, `augmentations_per_image = 2`, enabled kinds
`{FLIP, ROTATE}`, copy-originals enabled, no failures: 10 originals plus 10 variants. -/
theorem c7_output_count_witness :
    (∀ p : String, ((fun _ : String => some greyImage) p).isSome = true) ∧
    (∀ it : DatasetItem, (fun _ : DatasetItem => (none : Option ℕ)) it = none) ∧
    ∃ newItems,
      (augmentDataset trivialOps cfgC7 constEntropy false true true "out"
          (fun _ => false) (fun _ => some greyImage) (fun _ => none) dataset10
          initialStats zeroState).1 =
        copyPhase true false "out" (fun _ => false) dataset10 ++ newItems ∧
      newItems.length = dataset10.length * (cfgC7.augmentations_per_image - 1) ∧
      (augmentDataset trivialOps cfgC7 constEntropy false true true "out"
          (fun _ => false) (fun _ => some greyImage) (fun _ => none) dataset10
          initialStats zeroState).1.length =
        dataset10.length + dataset10.length * (cfgC7.augmentations_per_image - 1) :=
  ⟨fun p => rfl, fun it => rfl,
    c7_output_count trivialOps cfgC7 constEntropy false true "out" (fun _ => false)
      (fun _ => some greyImage) (fun _ => none) dataset10 initialStats zeroState
      (fun p => rfl) (fun it => rfl)⟩

/-- C8: after a PATCH_DELETION transform, every pixel inside any patch rectangle
recorded in its metadata exactly equals the configured fill color. -/
theorem c8_patch_pixels_filled (ops : PixelOps) (cfg : AugmentationConfig)
    (e : Entropy) (img : Image) (r : RandState) (ps : List PatchInfo) (n : ℕ)
    (hrec : (applyAugmentation ops cfg e img .PATCH_DELETION r).2.1 =
      AugInfo.patchDeletion ps n) :
    ∀ p ∈ ps, ∀ x y : ℕ,
      p.position.1 ≤ x → x ≤ p.position.2.2.1 →
      p.position.2.1 ≤ y → y ≤ p.position.2.2.2 →
        ((applyAugmentation ops cfg e img .PATCH_DELETION r).1).pixel x y =
          cfg.patch_fill_color := by
  simp only [applyAugmentation] at hrec ⊢
  injection hrec with hps hn
  subst hps
  intro p hp x y h1 h2 h3 h4
  exact patchLoop_fill cfg e _ img _ p hp x y h1 h2 h3 h4

/-- C8 witness: under `cfgC8` one patch `(0, 0, 2, 2)` is recorded on the 4×4 grey
image and the pixel `(1, 1)` inside it equals the fill color `(0, 0, 0)`. -/
theorem c8_patch_pixels_filled_witness :
    ((applyAugmentation trivialOps cfgC8 constEntropy greyImage .PATCH_DELETION
        zeroState).2.1 =
      AugInfo.patchDeletion [⟨(0, 0, 2, 2), 1/2⟩] 1) ∧
    ((applyAugmentation trivialOps cfgC8 constEntropy greyImage .PATCH_DELETION
        zeroState).1).pixel 1 1 = cfgC8.patch_fill_color := by
  have hrec : (applyAugmentation trivialOps cfgC8 constEntropy greyImage
      .PATCH_DELETION zeroState).2.1 =
      AugInfo.patchDeletion [⟨(0, 0, 2, 2), 1/2⟩] 1 := by
    simp only [applyAugmentation, patchLoop, randomUniform, randomRandint, fillRect,
      constEntropy, cfgC8, greyImage, zeroState]
    norm_num
    rfl
  exact ⟨hrec,
    c8_patch_pixels_filled trivialOps cfgC8 constEntropy greyImage zeroState
      [⟨(0, 0, 2, 2), 1/2⟩] 1 hrec ⟨(0, 0, 2, 2), 1/2⟩ (List.mem_singleton.mpr rfl)
      1 1 (by decide) (by decide) (by decide) (by decide)⟩

/-- C9: every channel of every pixel produced by `_add_noise` lies within the valid
integer pixel range `[0, 255]` after clipping and conversion back to uint8, for every
input image, sampled standard deviation and raw gaussian draw. -/
theorem c9_noise_in_range (image : Image) (factor : ℚ) (e : Entropy) (r : RandState)
    (x y : ℕ) :
    (0 ≤ (((addNoise image factor e r).1).pixel x y).1 ∧
      (((addNoise image factor e r).1).pixel x y).1 ≤ 255) ∧
    (0 ≤ (((addNoise image factor e r).1).pixel x y).2.1 ∧
      (((addNoise image factor e r).1).pixel x y).2.1 ≤ 255) ∧
    (0 ≤ (((addNoise image factor e r).1).pixel x y).2.2 ∧
      (((addNoise image factor e r).1).pixel x y).2.2 ≤ 255) := by
  have hc : ∀ q : ℚ, clipToU8 q ≤ 255 := by
    intro q
    unfold clipToU8
    have h1 : min 255 (max 0 q) ≤ (255 : ℚ) := min_le_left _ _
    have h2 := Int.floor_le_floor h1
    have h3 : Int.floor ((255 : ℚ)) = 255 := by norm_num
    rw [h3] at h2
    exact Int.toNat_le.mpr h2
  exact ⟨⟨Nat.zero_le _, hc _⟩, ⟨Nat.zero_le _, hc _⟩, ⟨Nat.zero_le _, hc _⟩⟩

/-- C10: when the copy phase fails for a source item, its `image_path` is left
unchanged (still pointing into the input tree), yet the item is still part of the
aggregate returned by `augment_dataset` and is still submitted to the augmentation
phase (its `_augment_item` result appears in the aggregate). -/
theorem c10_copy_failure_item_kept (ops : PixelOps) (cfg : AugmentationConfig)
    (e : Entropy) (maintain sm : Bool) (od : String) (cf : DatasetItem → Bool)
    (decoded : String → Option Image) (failAt : DatasetItem → Option ℕ)
    (dataset : List DatasetItem) (st : Stats) (r : RandState) (item : DatasetItem)
    (hmem : item ∈ dataset) (hfail : cf item = true) :
    (copyOriginalItem maintain od item (cf item)).image_path = item.image_path ∧
    item ∈ (augmentDataset ops cfg e maintain sm true od cf decoded failAt dataset
      st r).1 ∧
    ∃ st2 r2 pre post,
      (augmentDataset ops cfg e maintain sm true od cf decoded failAt dataset st
          r).1 =
        pre ++ (augmentItem ops cfg e maintain sm od item (decoded item.image_path)
          (failAt item) st2 r2).1 ++ post := by
  have hcopy : copyOriginalItem maintain od item (cf item) = item := by
    rw [hfail]
    rfl
  have hbase : item ∈ copyPhase true maintain od cf dataset := by
    show item ∈ dataset.map fun it => copyOriginalItem maintain od it (cf it)
    exact List.mem_map.mpr ⟨item, hmem, hcopy⟩
  refine ⟨by rw [hcopy], ?_, ?_⟩
  · rw [augmentDataset_fst]
    exact List.mem_append_left _ hbase
  · obtain ⟨st2, r2, pre, post, heq⟩ := augmentLoop_decomp ops cfg e maintain sm od
      decoded failAt (copyPhase true maintain od cf dataset)
      { st with total_original := dataset.length } r item hbase
    refine ⟨st2, r2, copyPhase true maintain od cf dataset ++ pre, post, ?_⟩
    rw [augmentDataset_fst, heq]
    simp [List.append_assoc]

/-- C10 witness: a singleton dataset whose only item's copy fails: the item keeps its
path, is in the aggregate, and its augmentation output appears in the aggregate. -/
theorem c10_copy_failure_item_kept_witness :
    (itemW ∈ [itemW] ∧ (fun _ : DatasetItem => true) itemW = true) ∧
    ((copyOriginalItem false "out" itemW ((fun _ : DatasetItem => true)
        itemW)).image_path = itemW.image_path ∧
      itemW ∈ (augmentDataset trivialOps cfgC7 constEntropy false true true "out"
        (fun _ => true) (fun _ => some greyImage) (fun _ => none) [itemW]
        initialStats zeroState).1 ∧
      ∃ st2 r2 pre post,
        (augmentDataset trivialOps cfgC7 constEntropy false true true "out"
            (fun _ => true) (fun _ => some greyImage) (fun _ => none) [itemW]
            initialStats zeroState).1 =
          pre ++ (augmentItem trivialOps cfgC7 constEntropy false true "out" itemW
            ((fun _ : String => some greyImage) itemW.image_path)
            ((fun _ : DatasetItem => (none : Option ℕ)) itemW) st2 r2).1 ++ post) :=
  ⟨⟨List.mem_singleton.mpr rfl, rfl⟩,
    c10_copy_failure_item_kept trivialOps cfgC7 constEntropy false true "out"
      (fun _ => true) (fun _ => some greyImage) (fun _ => none) [itemW] initialStats
      zeroState itemW (List.mem_singleton.mpr rfl) rfl⟩

end AugmentCaptions
